import Mathlib

/-!
Verification of the bb_mpu9150 repository core: the calibration pipeline
(`set_cal` in `src/linux-mpu9150/imu.c` and `src/mpu9150_node.cpp`), the
fixed-rate sampling loops (`read_loop` in `imu.c`, the ROS loop in
`mpu9150_node.cpp` `main`), and the surrounding `main` control flow.

File contents are modelled shallowly:
* a calibration file is the list of `atoi` results of its readable lines
  (`atoi` maps an unparsable line to `0`, which the source treats as the
  invalid sentinel);
* C `long`/`int` arithmetic is `Int`; the narrowing cast `(short)` is an
  explicit wrap into `[-32768, 32767]` (`toShort`); C integer division is
  `Int.tdiv` (truncation toward zero); the C unsigned-int expression
  `(1000 / sample_rate) - 2` is modelled with its 32-bit wrap;
* external effects (driver reads, prints, publishes, delays, driver
  shutdown) are recorded as events in a trace; the potentially unbounded
  loops take explicit fuel and return `none` when the fuel runs out before
  the loop exits, so every theorem about a completed run is about a run
  that really terminates.
-/

/-- Conversion of a C `long` value to `short` (two's-complement wrap into
`[-32768, 32767]`), the effect of the `(short)` casts in `set_cal`. -/
def toShort (x : Int) : Int := (x + 32768) % 65536 - 32768

/-- The `caldata_t` entry handed to the driver: three per-axis offsets and
three per-axis ranges, each a C `short` stored here as `Int`. -/
structure CalData where
  offset0 : Int
  offset1 : Int
  offset2 : Int
  range0 : Int
  range1 : Int
  range2 : Int
  deriving DecidableEq, Repr

/-- The `for (i = 0; i < 6; i++)` read loop of `set_cal`: take `n` values
from the file's lines, stopping with failure when the lines run out
(`!fgets`) or a parsed value is `0` (`val[i] == 0`). -/
def readCalVals : Nat → List Int → Option (List Int)
  | 0, _ => some []
  | _ + 1, [] => none
  | n + 1, v :: rest => if v = 0 then none else (readCalVals n rest).map (v :: ·)

/-- The offset/range computation of `set_cal` on the six parsed values:
`cal.offset[k] = (short)((val[2k] + val[2k+1]) / 2)` and
`cal.range[k] = (short)(val[2k+1] - cal.offset[k])`, with C division
truncating toward zero. -/
def mkCal (v : List Int) : CalData :=
  let v0 := v.getD 0 0
  let v1 := v.getD 1 0
  let v2 := v.getD 2 0
  let v3 := v.getD 3 0
  let v4 := v.getD 4 0
  let v5 := v.getD 5 0
  let o0 := toShort (Int.tdiv (v0 + v1) 2)
  let o1 := toShort (Int.tdiv (v2 + v3) 2)
  let o2 := toShort (Int.tdiv (v4 + v5) 2)
  { offset0 := o0, offset1 := o1, offset2 := o2,
    range0 := toShort (v1 - o0), range1 := toShort (v3 - o1),
    range2 := toShort (v5 - o2) }

/-- The file situation `set_cal` finds: an explicitly supplied path whose
`fopen` fails, an explicitly supplied path that opens (with the given parsed
lines), the default path (`./accelcal.txt` or `./magcal.txt`) absent, or the
default path present. -/
inductive FileArg where
  | explicitMissing : FileArg
  | explicitFile : List Int → FileArg
  | defaultMissing : FileArg
  | defaultFile : List Int → FileArg
  deriving DecidableEq, Repr

/-- Outcome of one `set_cal` call: `err` is the `return -1` paths, `noCal`
is the `return 0` path that never touches the driver (default file absent),
`calSet c` is the success path that hands `c` to the matching driver
setter and returns 0. -/
inductive CalOutcome where
  | err : CalOutcome
  | noCal : CalOutcome
  | calSet : CalData → CalOutcome
  deriving DecidableEq, Repr

/-- Function `set_cal` from `imu.c` (lines 243–313).  The `mag` flag only selects
which default filename is opened and which driver setter receives the
entry; the file situation itself is the `FileArg`. -/
def set_cal (mag : Bool) (arg : FileArg) : CalOutcome :=
  match mag, arg with
  | _, FileArg.explicitMissing => CalOutcome.err
  | _, FileArg.defaultMissing => CalOutcome.noCal
  | _, FileArg.explicitFile lines =>
    match readCalVals 6 lines with
    | none => CalOutcome.err
    | some vals => CalOutcome.calSet (mkCal vals)
  | _, FileArg.defaultFile lines =>
    match readCalVals 6 lines with
    | none => CalOutcome.err
    | some vals => CalOutcome.calSet (mkCal vals)

/-- The C return value of `set_cal` for each outcome. -/
def set_cal_ret : CalOutcome → Int
  | CalOutcome.err => -1
  | CalOutcome.noCal => 0
  | CalOutcome.calSet _ => 0

/-- Function `set_cal` from `mpu9150_node.cpp` (lines 261–331), transcribed
separately from that file; the source text there is identical to the
`imu.c` version. -/
def set_cal_node (mag : Bool) (arg : FileArg) : CalOutcome :=
  match mag, arg with
  | _, FileArg.explicitMissing => CalOutcome.err
  | _, FileArg.defaultMissing => CalOutcome.noCal
  | _, FileArg.explicitFile lines =>
    match readCalVals 6 lines with
    | none => CalOutcome.err
    | some vals => CalOutcome.calSet (mkCal vals)
  | _, FileArg.defaultFile lines =>
    match readCalVals 6 lines with
    | none => CalOutcome.err
    | some vals => CalOutcome.calSet (mkCal vals)

-- sanity examples (spec scenario)
example :
    set_cal false (FileArg.explicitFile [100, 300, -50, 50, 10, 20]) =
      CalOutcome.calSet (CalData.mk 200 0 15 100 50 5) := by decide

example : set_cal true (FileArg.explicitFile [100, 0, 3, 4, 5, 6]) = CalOutcome.err := by
  decide

/-- Externally visible events of a run: a driver read with its return
value, the console print (`print_fused_euler_angles`), a call to
`linux_delay_ms` with its millisecond argument, a ROS publish
(`chatter_pub.publish`, with whether the message body was filled from a
fresh sample), a `loop_rate.sleep()` of the `ros::Rate` constructed with
the given Hz, the driver calibration setters, and `mpu9150_exit`. -/
inductive Event where
  | readEv : Int → Event
  | printEv : Event
  | delayEv : Nat → Event
  | publishEv : Bool → Event
  | rateSleepEv : Nat → Event
  | setAccelCalEv : CalData → Event
  | setMagCalEv : CalData → Event
  | shutdownEv : Event
  deriving DecidableEq, Repr

/-- Driver-setter events produced by one `set_cal` call: the success path
calls `mpu9150_set_mag_cal` or `mpu9150_set_accel_cal` according to `mag`;
every other path touches no driver state. -/
def set_cal_events (mag : Bool) (arg : FileArg) : List Event :=
  match set_cal mag arg with
  | CalOutcome.calSet c =>
    if mag then [Event.setMagCalEv c] else [Event.setAccelCalEv c]
  | _ => []

/-- Driver-setter events of the `mpu9150_node.cpp` copy of `set_cal`. -/
def set_cal_events_node (mag : Bool) (arg : FileArg) : List Event :=
  match set_cal_node mag arg with
  | CalOutcome.calSet c =>
    if mag then [Event.setMagCalEv c] else [Event.setAccelCalEv c]
  | _ => []

/-- The loop delay `loop_delay = (1000 / sample_rate) - 2` (identical line
in `imu.c` and `mpu9150_node.cpp`): the subtraction happens in C
`unsigned int`, so the expression is the 32-bit wrap of
`1000 / sample_rate - 2`. -/
def loop_delay (sample_rate : Nat) : Nat :=
  ((1000 / sample_rate) + (2 ^ 32 - 2)) % 2 ^ 32

/-- The spec's SamplingClock contract, written from the spec's words:
`delayMs(rate) = max(0, floor(1000 / rate) - 2)`. -/
def delayMs_spec (rate : Nat) : Int :=
  max 0 ((1000 : Int) / (rate : Int) - 2)

/-- The `while (!done)` body of `read_loop` in `imu.c`: at the top of each
cycle the `done` flag is polled (`dn n` is its value at the `n`-th poll);
while it is clear the cycle reads the driver, prints on a fresh sample
(return value 0), and delays by the fixed `d` milliseconds.  `fuel` bounds
the number of cycles modelled; `none` means the flag was still clear when
the fuel ran out. -/
def read_loop_go (dn : Nat → Bool) (rd : Nat → Int) (d : Nat) :
    Nat → Nat → Option (List Event)
  | 0, n => if dn n then some [] else none
  | fuel + 1, n =>
    if dn n then some []
    else
      (read_loop_go dn rd d fuel (n + 1)).map (fun rest =>
        Event.readEv (rd n) ::
          ((if rd n = 0 then [Event.printEv] else []) ++ Event.delayEv d :: rest))

/-- Function `read_loop` from `imu.c` (lines 172–200): return at once when
`sample_rate == 0`, otherwise compute `loop_delay` once, delay once before
the loop, and run the polling loop with that fixed delay. -/
def read_loop (rate : Nat) (dn : Nat → Bool) (rd : Nat → Int) (fuel : Nat) :
    Option (List Event) :=
  if rate = 0 then some []
  else
    (read_loop_go dn rd (loop_delay rate) fuel 0).map
      (fun t => Event.delayEv (loop_delay rate) :: t)

/-- The post-CLI part of `main` in `imu.c` (lines 149–169): calibrate accel
then mag (both return values discarded), run `read_loop`, then call
`mpu9150_exit` and return 0. -/
def main_imu (a m : FileArg) (rate : Nat) (dn : Nat → Bool) (rd : Nat → Int)
    (fuel : Nat) : Option (List Event) :=
  (read_loop rate dn rd fuel).map (fun t =>
    set_cal_events false a ++ set_cal_events true m ++ t ++ [Event.shutdownEv])

/-- The `while (ros::ok())` loop of `mpu9150_node.cpp` `main` (lines
192–216): each cycle reads the driver, fills the message body only on a
fresh sample, publishes unconditionally, and sleeps on the `ros::Rate(10)`
object.  `ok n` is the value of `ros::ok()` at the `n`-th check. -/
def node_loop_go (ok : Nat → Bool) (rd : Nat → Int) :
    Nat → Nat → Option (List Event)
  | 0, n => if ok n then none else some []
  | fuel + 1, n =>
    if ok n then
      (node_loop_go ok rd fuel (n + 1)).map (fun rest =>
        Event.readEv (rd n) :: Event.publishEv (rd n == 0) ::
          Event.rateSleepEv 10 :: rest)
    else some []

/-- The post-CLI part of `main` in `mpu9150_node.cpp` (lines 168–217):
calibrate accel then mag (return values discarded), return -1 at once when
`sample_rate == 0`, otherwise compute `loop_delay` once, delay once, and
run the ROS loop.  No path calls `mpu9150_exit`. -/
def main_node (a m : FileArg) (rate : Nat) (ok : Nat → Bool) (rd : Nat → Int)
    (fuel : Nat) : Option (List Event) :=
  let pre := set_cal_events false a ++ set_cal_events true m
  if rate = 0 then some pre
  else
    (node_loop_go ok rd fuel 0).map (fun t =>
      pre ++ Event.delayEv (loop_delay rate) :: t)

/-- The C return value of the node's `main` for the paths the model covers:
-1 on the `sample_rate == 0` short-circuit, 0 when the ROS loop exits. -/
def main_node_ret (rate : Nat) : Int := if rate = 0 then -1 else 0

def isRead : Event → Bool
  | Event.readEv _ => true
  | _ => false

def isFresh : Event → Bool
  | Event.readEv r => r == 0
  | _ => false

def isPrint : Event → Bool
  | Event.printEv => true
  | _ => false

def isDelay : Event → Bool
  | Event.delayEv _ => true
  | _ => false

def isPublish : Event → Bool
  | Event.publishEv _ => true
  | _ => false

def isRateSleep : Event → Bool
  | Event.rateSleepEv _ => true
  | _ => false

def isShutdown : Event → Bool
  | Event.shutdownEv => true
  | _ => false

/-- Number of driver reads in a trace. -/
def countReads (t : List Event) : Nat := t.countP isRead

/-- Number of driver reads that returned a fresh sample. -/
def countFresh (t : List Event) : Nat := t.countP isFresh

/-- Number of console dispatches in a trace. -/
def countPrints (t : List Event) : Nat := t.countP isPrint

/-- Number of `linux_delay_ms` calls in a trace. -/
def countDelays (t : List Event) : Nat := t.countP isDelay

/-- Number of ROS publishes in a trace. -/
def countPublishes (t : List Event) : Nat := t.countP isPublish

/-- Number of `loop_rate.sleep()` calls in a trace. -/
def countRateSleeps (t : List Event) : Nat := t.countP isRateSleep

/-- Number of `mpu9150_exit` calls in a trace. -/
def countShutdowns (t : List Event) : Nat := t.countP isShutdown

/-- An event is either not a `linux_delay_ms` call or one that slept
exactly `d` milliseconds. -/
def isFixedDelay (d : Nat) : Event → Bool
  | Event.delayEv x => x == d
  | _ => true

/-- Every `linux_delay_ms` call in the (completed) run slept exactly `d`
milliseconds; vacuously true of a run that did not complete. -/
def delaysAllEq (d : Nat) (o : Option (List Event)) : Bool :=
  (o.getD []).all (isFixedDelay d)

/-- The run completed and performed at most `k` driver reads. -/
def loopBoundedBy (o : Option (List Event)) (k : Nat) : Bool :=
  match o with
  | some t => decide (countReads t ≤ k)
  | none => false

-- sanity examples for the loop models
example :
    read_loop 10 (fun n => decide (1 ≤ n)) (fun _ => 0) 3 =
      some [Event.delayEv 98, Event.readEv 0, Event.printEv, Event.delayEv 98] := by
  decide

example :
    main_node FileArg.defaultMissing FileArg.defaultMissing 10
      (fun n => decide (n < 1)) (fun _ => 0) 3 =
      some [Event.delayEv 98, Event.readEv 0, Event.publishEv true,
        Event.rateSleepEv 10] := by decide

/-- The wrap `toShort` is the identity on values already in the `short` range. -/
theorem toShort_eq_self (x : Int) (hlo : -32768 ≤ x) (hhi : x ≤ 32767) :
    toShort x = x := by
  unfold toShort
  omega

/-- Reducing the subtrahend modulo 2^16 before a subtraction does not change
the result modulo 2^16: the double `(short)` cast in the range computation
equals a single cast of the uncast formula. -/
theorem toShort_sub_toShort (a b : Int) : toShort (a - toShort b) = toShort (a - b) := by
  unfold toShort
  omega

/-- A file with fewer than `n` readable lines, or with the zero sentinel
among its first `n` lines, fails the value-reading loop. -/
theorem readCalVals_eq_none (n : Nat) (l : List Int)
    (h : l.length < n ∨ (0 : Int) ∈ l.take n) : readCalVals n l = none := by
  induction n generalizing l with
  | zero => simp at h
  | succ n ih =>
    cases l with
    | nil => rfl
    | cons v rest =>
      by_cases hv : v = 0
      · simp [readCalVals, hv]
      · have hrest : rest.length < n ∨ (0 : Int) ∈ rest.take n := by
          rcases h with h | h
          · exact Or.inl (by simpa using Nat.lt_of_succ_lt_succ (by simpa using h))
          · simp only [List.take, List.mem_cons] at h
            rcases h with h | h
            · exact absurd h.symm hv
            · exact Or.inr h
        simp [readCalVals, hv, ih rest hrest]

/-- The offset component the driver would receive, when the load succeeded. -/
def calOffset0 : CalOutcome → Option Int
  | CalOutcome.calSet c => some c.offset0
  | _ => none

/-- Claim C1 as stated is false: the entry is narrowed through the C
`(short)` casts, so for the six nonzero input lines
`(4, 65540, 4, 6, 4, 6)` the computed first offset is `-32764`, not the
claimed `(4 + 65540) / 2 = 32772`. -/
theorem C1_cal_formula_cex :
    calOffset0 (set_cal false (FileArg.explicitFile [4, 65540, 4, 6, 4, 6])) =
      some (-32764) ∧
    calOffset0 (set_cal false (FileArg.explicitFile [4, 65540, 4, 6, 4, 6])) ≠
      some (Int.tdiv (4 + 65540) 2) := by
  decide

/-- Claim C1, amended: for every calibration load that successfully reads 6
nonzero integer lines, and whose per-axis offsets `(val[2k]+val[2k+1])/2`
and ranges `val[2k+1] - offset` all lie in the `short` range
`[-32768, 32767]`, the entry handed to the driver is exactly the claimed
formula (C truncating division); in particular the lines
`(100, 300, -50, 50, 10, 20)` yield offset `(200, 0, 15)` and range
`(100, 50, 5)`. -/
theorem C1_cal_formula (v0 v1 v2 v3 v4 v5 : Int) (rest : List Int) (b : Bool)
    (h0 : v0 ≠ 0) (h1 : v1 ≠ 0) (h2 : v2 ≠ 0) (h3 : v3 ≠ 0) (h4 : v4 ≠ 0)
    (h5 : v5 ≠ 0)
    (hO0 : -32768 ≤ Int.tdiv (v0 + v1) 2 ∧ Int.tdiv (v0 + v1) 2 ≤ 32767)
    (hO1 : -32768 ≤ Int.tdiv (v2 + v3) 2 ∧ Int.tdiv (v2 + v3) 2 ≤ 32767)
    (hO2 : -32768 ≤ Int.tdiv (v4 + v5) 2 ∧ Int.tdiv (v4 + v5) 2 ≤ 32767)
    (hR0 : -32768 ≤ v1 - Int.tdiv (v0 + v1) 2 ∧ v1 - Int.tdiv (v0 + v1) 2 ≤ 32767)
    (hR1 : -32768 ≤ v3 - Int.tdiv (v2 + v3) 2 ∧ v3 - Int.tdiv (v2 + v3) 2 ≤ 32767)
    (hR2 : -32768 ≤ v5 - Int.tdiv (v4 + v5) 2 ∧ v5 - Int.tdiv (v4 + v5) 2 ≤ 32767) :
    set_cal b (FileArg.explicitFile (v0 :: v1 :: v2 :: v3 :: v4 :: v5 :: rest)) =
      CalOutcome.calSet
        (CalData.mk (Int.tdiv (v0 + v1) 2) (Int.tdiv (v2 + v3) 2)
          (Int.tdiv (v4 + v5) 2) (v1 - Int.tdiv (v0 + v1) 2)
          (v3 - Int.tdiv (v2 + v3) 2) (v5 - Int.tdiv (v4 + v5) 2)) := by
  have hread : readCalVals 6 (v0 :: v1 :: v2 :: v3 :: v4 :: v5 :: rest) =
      some [v0, v1, v2, v3, v4, v5] := by
    simp [readCalVals, h0, h1, h2, h3, h4, h5]
  cases b <;>
    · simp only [set_cal, hread, CalOutcome.calSet.injEq]
      simp only [mkCal, List.getD, List.get?_cons_zero, List.get?_cons_succ,
        Option.getD_some]
      rw [toShort_eq_self _ hO0.1 hO0.2, toShort_eq_self _ hO1.1 hO1.2,
        toShort_eq_self _ hO2.1 hO2.2, toShort_eq_self _ hR0.1 hR0.2,
        toShort_eq_self _ hR1.1 hR1.2, toShort_eq_self _ hR2.1 hR2.2]

/-- Witness for the amended C1 at the spec's scenario input
`(100, 300, -50, 50, 10, 20)`. -/
theorem C1_cal_formula_witness :
    set_cal false (FileArg.explicitFile [100, 300, -50, 50, 10, 20]) =
      CalOutcome.calSet (CalData.mk 200 0 15 100 50 5) := by
  exact C1_cal_formula 100 300 (-50) 50 10 20 [] false (by decide) (by decide)
    (by decide) (by decide) (by decide) (by decide) (by decide) (by decide)
    (by decide) (by decide) (by decide) (by decide)

/-- Claim C4: on the CLI-validated range `[2, 50]` the loop delay computed
by `loop_delay = (1000 / sample_rate) - 2` equals the spec's pure function
`max(0, floor(1000/rate) - 2)`, that function is non-negative there,
`delayMs(10) = 98` (and the code's value at 10 is 98), and the delay is
monotonically non-increasing as the rate increases over `[2, 50]`. -/
theorem C4_delay_formula :
    (∀ rate : Nat, rate ≤ 50 → 2 ≤ rate →
      (loop_delay rate : Int) = delayMs_spec rate ∧ 0 ≤ delayMs_spec rate) ∧
    loop_delay 10 = 98 ∧ delayMs_spec 10 = 98 ∧
    (∀ r : Nat, r ≤ 50 → ∀ s : Nat, s ≤ 50 → 2 ≤ r → r ≤ s →
      loop_delay s ≤ loop_delay r) := by
  refine ⟨by decide, by decide, by decide, by decide⟩

/-- Witness for C4 at the spec's scenario rate 10 (with 50 as the larger
rate for the monotonicity part). -/
theorem C4_delay_formula_witness :
    (loop_delay 10 : Int) = delayMs_spec 10 ∧ loop_delay 50 ≤ loop_delay 10 := by
  exact ⟨(C4_delay_formula.1 10 (by decide) (by decide)).1,
    C4_delay_formula.2.2.2 10 (by decide) 50 (by decide) (by decide) (by decide)⟩

/-- Claim C5: a calibration file with fewer than 6 readable lines, or with
a line whose parsed value is zero (which is also what `atoi` yields on an
unparsable line) among the 6 lines read, makes `set_cal` return -1 without
invoking either driver calibration setter — for both an explicitly supplied
file and a default-named file, and for both the accel and mag slots. -/
theorem C5_invalid_load (lines : List Int) (b : Bool)
    (h : lines.length < 6 ∨ (0 : Int) ∈ lines.take 6) :
    set_cal b (FileArg.explicitFile lines) = CalOutcome.err ∧
    set_cal b (FileArg.defaultFile lines) = CalOutcome.err ∧
    set_cal_ret (set_cal b (FileArg.explicitFile lines)) = -1 ∧
    set_cal_ret (set_cal b (FileArg.defaultFile lines)) = -1 ∧
    set_cal_events b (FileArg.explicitFile lines) = [] ∧
    set_cal_events b (FileArg.defaultFile lines) = [] := by
  have hn := readCalVals_eq_none 6 lines h
  cases b <;> simp [set_cal, set_cal_events, set_cal_ret, hn]

/-- Witness for C5 on the three-line file `(100, 0, 5)` for the mag slot. -/
theorem C5_invalid_load_witness :
    set_cal true (FileArg.explicitFile [100, 0, 5]) = CalOutcome.err ∧
    set_cal_events true (FileArg.explicitFile [100, 0, 5]) = [] := by
  exact ⟨(C5_invalid_load [100, 0, 5] true (Or.inl (by decide))).1,
    (C5_invalid_load [100, 0, 5] true (Or.inl (by decide))).2.2.2.2.1⟩

/-- Claim C9: the `set_cal` of `imu.c` and the `set_cal` of
`mpu9150_node.cpp` are behaviourally equivalent: for every (mag, file)
input they produce the same outcome, the same C return value, and invoke
the same driver setter with the same entry. -/
theorem C9_set_cal_equiv :
    ∀ (b : Bool) (arg : FileArg),
      set_cal b arg = set_cal_node b arg ∧
      set_cal_ret (set_cal b arg) = set_cal_ret (set_cal_node b arg) ∧
      set_cal_events b arg = set_cal_events_node b arg := by
  intro b arg
  cases b <;> cases arg <;> exact ⟨rfl, rfl, rfl⟩

/-- Claim C10: on every successful 6-value load (explicit or default file),
the entry handed to the driver setter is the §3 formula reduced modulo 2^16
into the signed `short` range: offsets are `toShort((val[2k]+val[2k+1])/2)`
and ranges are `toShort(val[2k+1] - (val[2k]+val[2k+1])/2)` — out-of-range
values are silently wrapped, never rejected. -/
theorem C10_short_narrowing (v0 v1 v2 v3 v4 v5 : Int) (rest : List Int) (b : Bool)
    (c : CalData)
    (h : set_cal b (FileArg.explicitFile (v0 :: v1 :: v2 :: v3 :: v4 :: v5 :: rest)) =
        CalOutcome.calSet c ∨
      set_cal b (FileArg.defaultFile (v0 :: v1 :: v2 :: v3 :: v4 :: v5 :: rest)) =
        CalOutcome.calSet c) :
    c.offset0 = toShort (Int.tdiv (v0 + v1) 2) ∧
    c.offset1 = toShort (Int.tdiv (v2 + v3) 2) ∧
    c.offset2 = toShort (Int.tdiv (v4 + v5) 2) ∧
    c.range0 = toShort (v1 - Int.tdiv (v0 + v1) 2) ∧
    c.range1 = toShort (v3 - Int.tdiv (v2 + v3) 2) ∧
    c.range2 = toShort (v5 - Int.tdiv (v4 + v5) 2) := by
  have hkey : mkCal [v0, v1, v2, v3, v4, v5] = c →
      c.offset0 = toShort (Int.tdiv (v0 + v1) 2) ∧
      c.offset1 = toShort (Int.tdiv (v2 + v3) 2) ∧
      c.offset2 = toShort (Int.tdiv (v4 + v5) 2) ∧
      c.range0 = toShort (v1 - Int.tdiv (v0 + v1) 2) ∧
      c.range1 = toShort (v3 - Int.tdiv (v2 + v3) 2) ∧
      c.range2 = toShort (v5 - Int.tdiv (v4 + v5) 2) := by
    intro hc
    subst hc
    refine ⟨?_, ?_, ?_, ?_, ?_, ?_⟩ <;>
      simp only [mkCal, List.getD, List.get?_cons_zero, List.get?_cons_succ,
        Option.getD_some, toShort_sub_toShort]
  by_cases hv0 : v0 = 0
  · rcases h with h | h <;> cases b <;> simp [set_cal, readCalVals, hv0] at h
  by_cases hv1 : v1 = 0
  · rcases h with h | h <;> cases b <;> simp [set_cal, readCalVals, hv0, hv1] at h
  by_cases hv2 : v2 = 0
  · rcases h with h | h <;> cases b <;> simp [set_cal, readCalVals, hv0, hv1, hv2] at h
  by_cases hv3 : v3 = 0
  · rcases h with h | h <;> cases b <;>
      simp [set_cal, readCalVals, hv0, hv1, hv2, hv3] at h
  by_cases hv4 : v4 = 0
  · rcases h with h | h <;> cases b <;>
      simp [set_cal, readCalVals, hv0, hv1, hv2, hv3, hv4] at h
  by_cases hv5 : v5 = 0
  · rcases h with h | h <;> cases b <;>
      simp [set_cal, readCalVals, hv0, hv1, hv2, hv3, hv4, hv5] at h
  rcases h with h | h <;> cases b <;>
      simp [set_cal, readCalVals, hv0, hv1, hv2, hv3, hv4, hv5] at h <;>
      exact hkey h

/-- The six-line input of the C10 witness: minima/maxima whose offset and
range formulas overflow the `short` range. -/
def linesC10 : List Int := [40000, 41000, 35000, 35000, 20000, 25000]

/-- The wrapped entry the driver receives for `linesC10`. -/
def calC10 : CalData := CalData.mk (-25036) (-30536) 22500 500 0 2500

/-- Witness for C10: the load of `linesC10` succeeds (it is not rejected)
and the entry is the formula wrapped into the `short` range. -/
theorem C10_short_narrowing_witness :
    set_cal false (FileArg.explicitFile linesC10) = CalOutcome.calSet calC10 ∧
    (calC10.offset0 = toShort (Int.tdiv (40000 + 41000) 2) ∧
      calC10.offset1 = toShort (Int.tdiv (35000 + 35000) 2) ∧
      calC10.offset2 = toShort (Int.tdiv (20000 + 25000) 2) ∧
      calC10.range0 = toShort (41000 - Int.tdiv (40000 + 41000) 2) ∧
      calC10.range1 = toShort (35000 - Int.tdiv (35000 + 35000) 2) ∧
      calC10.range2 = toShort (25000 - Int.tdiv (20000 + 25000) 2)) := by
  refine ⟨by decide, ?_⟩
  exact C10_short_narrowing 40000 41000 35000 35000 20000 25000 [] false calC10
    (Or.inl (by decide))

/-- A predicate that is false on driver-setter events counts nothing in the
events of a `set_cal` call. -/
theorem countP_set_cal_events (p : Event → Bool)
    (hA : ∀ c, p (Event.setAccelCalEv c) = false)
    (hM : ∀ c, p (Event.setMagCalEv c) = false)
    (b : Bool) (arg : FileArg) : (set_cal_events b arg).countP p = 0 := by
  unfold set_cal_events
  cases set_cal b arg <;> cases b <;>
    simp [List.countP_cons, List.countP_nil, hA, hM]

/-- A predicate false on every event kind the `imu.c` polling loop emits
counts nothing in any completed loop run. -/
theorem read_loop_go_countP_zero (dn : Nat → Bool) (rd : Nat → Int) (d : Nat)
    (p : Event → Bool) (h1 : ∀ r, p (Event.readEv r) = false)
    (h2 : p Event.printEv = false) (h3 : ∀ x, p (Event.delayEv x) = false) :
    ∀ fuel n, (read_loop_go dn rd d fuel n).map (List.countP p) =
      (read_loop_go dn rd d fuel n).map (fun _ => 0) := by
  intro fuel
  induction fuel with
  | zero => intro n; by_cases h : dn n <;> simp [read_loop_go, h, List.countP_nil]
  | succ fuel ih =>
    intro n
    by_cases h : dn n
    · simp [read_loop_go, h, List.countP_nil]
    · cases hrec : read_loop_go dn rd d fuel (n + 1) with
      | none => simp [read_loop_go, h, hrec]
      | some rest =>
        have hr := ih (n + 1)
        rw [hrec] at hr
        simp only [Option.map_some', Option.some.injEq] at hr
        by_cases hz : rd n = 0 <;>
          simp [read_loop_go, h, hrec, hz, List.countP_cons, List.countP_append,
            h1, h2, h3, hr]

/-- In every completed `imu.c` loop run, the number of console dispatches
equals the number of fresh driver reads: a cycle prints exactly when its
read returned 0. -/
theorem read_loop_go_prints_eq_fresh (dn : Nat → Bool) (rd : Nat → Int) (d : Nat) :
    ∀ fuel n, (read_loop_go dn rd d fuel n).map countPrints =
      (read_loop_go dn rd d fuel n).map countFresh := by
  intro fuel
  induction fuel with
  | zero =>
    intro n
    by_cases h : dn n <;>
      simp [read_loop_go, h, countPrints, countFresh, List.countP_nil]
  | succ fuel ih =>
    intro n
    by_cases h : dn n
    · simp [read_loop_go, h, countPrints, countFresh, List.countP_nil]
    · cases hrec : read_loop_go dn rd d fuel (n + 1) with
      | none => simp [read_loop_go, h, hrec]
      | some rest =>
        have hr := ih (n + 1)
        rw [hrec] at hr
        simp only [Option.map_some', Option.some.injEq] at hr
        by_cases hz : rd n = 0 <;>
          simp [read_loop_go, h, hrec, hz, countPrints, countFresh,
            List.countP_cons, List.countP_append, isPrint, isFresh] at hr ⊢ <;>
          omega

/-- In every completed `imu.c` loop run, each cycle performs exactly one
`linux_delay_ms` call along with its one driver read. -/
theorem read_loop_go_delays_eq_reads (dn : Nat → Bool) (rd : Nat → Int) (d : Nat) :
    ∀ fuel n, (read_loop_go dn rd d fuel n).map countDelays =
      (read_loop_go dn rd d fuel n).map countReads := by
  intro fuel
  induction fuel with
  | zero =>
    intro n
    by_cases h : dn n <;>
      simp [read_loop_go, h, countDelays, countReads, List.countP_nil]
  | succ fuel ih =>
    intro n
    by_cases h : dn n
    · simp [read_loop_go, h, countDelays, countReads, List.countP_nil]
    · cases hrec : read_loop_go dn rd d fuel (n + 1) with
      | none => simp [read_loop_go, h, hrec]
      | some rest =>
        have hr := ih (n + 1)
        rw [hrec] at hr
        simp only [Option.map_some', Option.some.injEq] at hr
        by_cases hz : rd n = 0 <;>
          simp [read_loop_go, h, hrec, hz, countDelays, countReads,
            List.countP_cons, List.countP_append, isDelay, isRead] at hr ⊢ <;>
          omega

/-- Every `linux_delay_ms` call in a completed `imu.c` loop run sleeps the
fixed `d` milliseconds the loop was given. -/
theorem read_loop_go_delays_fixed (dn : Nat → Bool) (rd : Nat → Int) (d : Nat) :
    ∀ fuel n t, read_loop_go dn rd d fuel n = some t →
      t.all (isFixedDelay d) = true := by
  intro fuel
  induction fuel with
  | zero =>
    intro n t h
    by_cases hdn : dn n <;> simp [read_loop_go, hdn] at h
    subst h
    simp
  | succ fuel ih =>
    intro n t h
    by_cases hdn : dn n
    · simp [read_loop_go, hdn] at h
      subst h
      simp
    · cases hrec : read_loop_go dn rd d fuel (n + 1) with
      | none => simp [read_loop_go, hdn, hrec] at h
      | some rest =>
        have hr := ih (n + 1) rest hrec
        simp [read_loop_go, hdn, hrec] at h
        subst h
        by_cases hz : rd n = 0 <;>
          simp [hz, List.all_cons, List.all_append, isFixedDelay, hr]

/-- Once the (monotone) `done` flag is set, the `imu.c` polling loop exits:
with at least `k` fuel from poll `n` on, the loop completes and performs at
most `k - n` further reads. -/
theorem read_loop_go_bounded (dn : Nat → Bool) (rd : Nat → Int) (d k : Nat)
    (hmono : ∀ j, dn j = true → dn (j + 1) = true) (hk : dn k = true) :
    ∀ fuel n, k ≤ n + fuel →
      ∃ t, read_loop_go dn rd d fuel n = some t ∧ countReads t ≤ k - n := by
  have hge : ∀ j, k ≤ j → dn j = true := by
    intro j
    induction j with
    | zero =>
      intro hj
      have hk0 : k = 0 := Nat.le_zero.mp hj
      rw [hk0] at hk
      exact hk
    | succ j ihj =>
      intro hj
      rcases Nat.eq_or_lt_of_le hj with he | hlt
      · rw [← he]
        exact hk
      · exact hmono j (ihj (Nat.lt_succ_iff.mp hlt))
  intro fuel
  induction fuel with
  | zero =>
    intro n hn
    refine ⟨[], ?_, ?_⟩
    · simp [read_loop_go, hge n (by omega)]
    · simp [countReads, List.countP_nil]
  | succ fuel ih =>
    intro n hn
    by_cases h : dn n
    · refine ⟨[], ?_, ?_⟩
      · simp [read_loop_go, h]
      · simp [countReads, List.countP_nil]
    · have hnk : n < k := by
        by_contra hc
        exact absurd (hge n (by omega)) (by simpa using h)
      obtain ⟨t, ht, hct⟩ := ih (n + 1) (by omega)
      refine ⟨Event.readEv (rd n) ::
        ((if rd n = 0 then [Event.printEv] else []) ++ Event.delayEv d :: t),
        ?_, ?_⟩
      · simp [read_loop_go, h, ht]
      · by_cases hz : rd n = 0 <;>
          simp [hz, countReads, List.countP_cons, List.countP_append, isRead] <;>
          · simp [countReads] at hct
            omega

/-- A predicate false on every event kind the node's ROS loop emits counts
nothing in any completed loop run; the loop never emits a `linux_delay_ms`
call, a console print, or a driver shutdown. -/
theorem node_loop_go_countP_zero (ok : Nat → Bool) (rd : Nat → Int)
    (p : Event → Bool) (h1 : ∀ r, p (Event.readEv r) = false)
    (h2 : ∀ bd, p (Event.publishEv bd) = false)
    (h3 : ∀ hz, p (Event.rateSleepEv hz) = false) :
    ∀ fuel n, (node_loop_go ok rd fuel n).map (List.countP p) =
      (node_loop_go ok rd fuel n).map (fun _ => 0) := by
  intro fuel
  induction fuel with
  | zero => intro n; by_cases h : ok n <;> simp [node_loop_go, h, List.countP_nil]
  | succ fuel ih =>
    intro n
    by_cases h : ok n
    · cases hrec : node_loop_go ok rd fuel (n + 1) with
      | none => simp [node_loop_go, h, hrec]
      | some rest =>
        have hr := ih (n + 1)
        rw [hrec] at hr
        simp only [Option.map_some', Option.some.injEq] at hr
        simp [node_loop_go, h, hrec, List.countP_cons, h1, h2, h3, hr]
    · simp [node_loop_go, h, List.countP_nil]

/-- In every completed run of the node's ROS loop, each cycle publishes
exactly once (whatever its read returned) and sleeps on the `ros::Rate`
object exactly once. -/
theorem node_loop_go_pub_eq_reads (ok : Nat → Bool) (rd : Nat → Int) :
    ∀ fuel n, ((node_loop_go ok rd fuel n).map countPublishes =
        (node_loop_go ok rd fuel n).map countReads) ∧
      ((node_loop_go ok rd fuel n).map countRateSleeps =
        (node_loop_go ok rd fuel n).map countReads) := by
  intro fuel
  induction fuel with
  | zero =>
    intro n
    by_cases h : ok n <;>
      simp [node_loop_go, h, countPublishes, countRateSleeps, countReads,
        List.countP_nil]
  | succ fuel ih =>
    intro n
    by_cases h : ok n
    · cases hrec : node_loop_go ok rd fuel (n + 1) with
      | none => simp [node_loop_go, h, hrec]
      | some rest =>
        have hr := (ih (n + 1)).1
        have hs := (ih (n + 1)).2
        rw [hrec] at hr hs
        simp only [Option.map_some', Option.some.injEq] at hr hs
        simp only [countPublishes, countRateSleeps, countReads] at hr hs
        constructor <;>
          simp [node_loop_go, h, hrec, countPublishes, countRateSleeps, countReads,
            List.countP_cons, isPublish, isRateSleep, isRead, hr, hs]
    · simp [node_loop_go, h, countPublishes, countRateSleeps, countReads,
        List.countP_nil]

/-- Function `read_loop` emits nothing a predicate false on reads, prints and delays
would count. -/
theorem read_loop_countP_zero (rate : Nat) (dn : Nat → Bool) (rd : Nat → Int)
    (fuel : Nat) (p : Event → Bool) (h1 : ∀ r, p (Event.readEv r) = false)
    (h2 : p Event.printEv = false) (h3 : ∀ x, p (Event.delayEv x) = false) :
    (read_loop rate dn rd fuel).map (List.countP p) =
      (read_loop rate dn rd fuel).map (fun _ => 0) := by
  unfold read_loop
  by_cases hr : rate = 0
  · simp [hr, List.countP_nil]
  · have hgo0 := read_loop_go_countP_zero dn rd (loop_delay rate) p h1 h2 h3 fuel 0
    cases hgo : read_loop_go dn rd (loop_delay rate) fuel 0 with
    | none => simp [hr, hgo]
    | some t =>
      rw [hgo] at hgo0
      simp only [Option.map_some', Option.some.injEq] at hgo0
      simp [hr, hgo, List.countP_cons, h3, hgo0]

/-- Counting reads, prints, fresh reads or delays in a full `imu.c` `main`
run is the same as counting them in its `read_loop` part: the calibration
phase and the final `mpu9150_exit` contribute none of those events. -/
theorem main_imu_countP (a m : FileArg) (rate : Nat) (dn : Nat → Bool)
    (rd : Nat → Int) (fuel : Nat) (p : Event → Bool)
    (hA : ∀ c, p (Event.setAccelCalEv c) = false)
    (hM : ∀ c, p (Event.setMagCalEv c) = false)
    (hS : p Event.shutdownEv = false) :
    (main_imu a m rate dn rd fuel).map (List.countP p) =
      (read_loop rate dn rd fuel).map (List.countP p) := by
  unfold main_imu
  cases hrl : read_loop rate dn rd fuel with
  | none => simp
  | some t =>
    simp [List.countP_append, List.countP_cons, List.countP_nil,
      countP_set_cal_events p hA hM, hS]

/-- Every completed `imu.c` `main` run calls `mpu9150_exit` exactly once,
whatever the calibration arguments, the rate and the flag history. -/
theorem main_imu_shutdown_once (a m : FileArg) (rate : Nat) (dn : Nat → Bool)
    (rd : Nat → Int) (fuel : Nat) :
    (main_imu a m rate dn rd fuel).map countShutdowns =
      (read_loop rate dn rd fuel).map (fun _ => 1) := by
  unfold main_imu
  cases hrl : read_loop rate dn rd fuel with
  | none => simp
  | some t =>
    have hz : List.countP isShutdown t = 0 := by
      have h0 := read_loop_countP_zero rate dn rd fuel isShutdown
        (fun _ => rfl) rfl (fun _ => rfl)
      rw [hrl] at h0
      simpa using h0
    simp [countShutdowns, List.countP_append, List.countP_cons, List.countP_nil,
      countP_set_cal_events isShutdown (fun _ => rfl) (fun _ => rfl), isShutdown, hz]

/-- A `main_node` run never contains a `mpu9150_exit` call. -/
theorem main_node_shutdown_count (a m : FileArg) (rate : Nat) (ok : Nat → Bool)
    (rd : Nat → Int) (fuel : Nat) :
    ((main_node a m rate ok rd fuel).getD []).countP isShutdown = 0 := by
  simp only [main_node]
  by_cases hr : rate = 0
  · simp [hr, List.countP_append,
      countP_set_cal_events isShutdown (fun _ => rfl) (fun _ => rfl)]
  · cases hgo : node_loop_go ok rd fuel 0 with
    | none => simp [hr, hgo]
    | some t =>
      have hz := node_loop_go_countP_zero ok rd isShutdown (fun _ => rfl)
        (fun _ => rfl) (fun _ => rfl) fuel 0
      rw [hgo] at hz
      simp only [Option.map_some', Option.some.injEq] at hz
      simp [hr, hgo, List.countP_append, List.countP_cons,
        countP_set_cal_events isShutdown (fun _ => rfl) (fun _ => rfl),
        isShutdown, hz]

/-- The node's `main` never calls the driver shutdown on any path. -/
theorem main_node_no_shutdown (a m : FileArg) (rate : Nat) (ok : Nat → Bool)
    (rd : Nat → Int) (fuel : Nat) :
    Event.shutdownEv ∉ (main_node a m rate ok rd fuel).getD [] := by
  intro hmem
  have hc := (List.countP_eq_zero.mp
    (main_node_shutdown_count a m rate ok rd fuel)) _ hmem
  simp [isShutdown] at hc

/-- Setter events satisfy any per-event predicate that holds on setter
events, for `List.all` bookkeeping. -/
theorem set_cal_events_all (f : Event → Bool)
    (hA : ∀ c, f (Event.setAccelCalEv c) = true)
    (hM : ∀ c, f (Event.setMagCalEv c) = true) (b : Bool) (arg : FileArg) :
    (set_cal_events b arg).all f = true := by
  unfold set_cal_events
  cases set_cal b arg <;> cases b <;> simp [hA, hM]

/-- In every completed `imu.c` `main` run, each `linux_delay_ms` call sleeps
exactly the `loop_delay` computed once from the requested rate. -/
theorem main_imu_delays_fixed (a m : FileArg) (rate : Nat) (dn : Nat → Bool)
    (rd : Nat → Int) (fuel : Nat) :
    delaysAllEq (loop_delay rate) (main_imu a m rate dn rd fuel) = true := by
  unfold delaysAllEq main_imu
  have hsh : ∀ d, isFixedDelay d Event.shutdownEv = true := fun _ => rfl
  have hhd : ∀ d, isFixedDelay d (Event.delayEv d) = true := by
    intro d
    simp [isFixedDelay]
  by_cases hr : rate = 0
  · simp [read_loop, hr, List.all_append, hsh,
      set_cal_events_all (isFixedDelay (loop_delay 0)) (fun _ => rfl) (fun _ => rfl)]
  · cases hgo : read_loop_go dn rd (loop_delay rate) fuel 0 with
    | none => simp [read_loop, hr, hgo]
    | some t =>
      have hall := read_loop_go_delays_fixed dn rd (loop_delay rate) fuel 0 t hgo
      simp [read_loop, hr, hgo, List.all_append, List.all_cons, hsh, hhd,
        set_cal_events_all (isFixedDelay (loop_delay rate)) (fun _ => rfl) (fun _ => rfl),
        hall]

/-- In every completed `imu.c` `main` run with a nonzero rate, the number of
`linux_delay_ms` calls is one more than the number of driver reads: the one
delay before the loop plus one delay per cycle — so a delay of the same
fixed length precedes every read. -/
theorem main_imu_delay_count (a m : FileArg) (rate : Nat) (dn : Nat → Bool)
    (rd : Nat → Int) (fuel : Nat) :
    (main_imu a m (rate + 1) dn rd fuel).map countDelays =
      (main_imu a m (rate + 1) dn rd fuel).map (fun t => countReads t + 1) := by
  unfold main_imu read_loop
  cases hgo : read_loop_go dn rd (loop_delay (rate + 1)) fuel 0 with
  | none => simp [hgo]
  | some t =>
    have hdr := read_loop_go_delays_eq_reads dn rd (loop_delay (rate + 1)) fuel 0
    rw [hgo] at hdr
    simp only [Option.map_some', Option.some.injEq, countDelays, countReads] at hdr
    simp [hgo, countDelays, countReads, List.countP_append, List.countP_cons,
      List.countP_nil,
      countP_set_cal_events isDelay (fun _ => rfl) (fun _ => rfl),
      countP_set_cal_events isRead (fun _ => rfl) (fun _ => rfl),
      isDelay, isRead, hdr]

/-- In every completed node `main` run with a nonzero rate, exactly one
`linux_delay_ms` call happens (the one before the loop), every iteration
instead sleeping on the hard-coded 10 Hz `ros::Rate` object. -/
theorem main_node_delay_count (a m : FileArg) (rate : Nat) (ok : Nat → Bool)
    (rd : Nat → Int) (fuel : Nat) :
    ((main_node a m (rate + 1) ok rd fuel).map countDelays =
      (main_node a m (rate + 1) ok rd fuel).map (fun _ => 1)) ∧
    ((main_node a m (rate + 1) ok rd fuel).map countRateSleeps =
      (main_node a m (rate + 1) ok rd fuel).map countReads) := by
  simp only [main_node]
  cases hgo : node_loop_go ok rd fuel 0 with
  | none => simp [hgo]
  | some t =>
    have hz := node_loop_go_countP_zero ok rd isDelay (fun _ => rfl) (fun _ => rfl)
      (fun _ => rfl) fuel 0
    have hrs := (node_loop_go_pub_eq_reads ok rd fuel 0).2
    rw [hgo] at hz hrs
    simp only [Option.map_some', Option.some.injEq, countRateSleeps, countReads] at hz hrs
    constructor <;>
      simp [hgo, countDelays, countRateSleeps, countReads, List.countP_append,
        List.countP_cons,
        countP_set_cal_events isDelay (fun _ => rfl) (fun _ => rfl),
        countP_set_cal_events isRateSleep (fun _ => rfl) (fun _ => rfl),
        countP_set_cal_events isRead (fun _ => rfl) (fun _ => rfl),
        isDelay, isRateSleep, isRead, hz, hrs]

/-- The `done`-flag history of the witness runs: clear at the first poll,
set from the second poll on. -/
def dnW : Nat → Bool := fun n => decide (1 ≤ n)

/-- A driver that always has a fresh sample. -/
def rdZero : Nat → Int := fun _ => 0

/-- The scenario flag history: the loop is allowed exactly 6 cycles. -/
def dnScen : Nat → Bool := fun n => decide (6 ≤ n)

/-- The scenario driver: "not ready" (-1) for five cycles, then a fresh
sample (0) on the sixth. -/
def rdScen : Nat → Int := fun n => if n = 5 then 0 else -1

/-- A ROS `ok()` history that ends the node loop after 6 cycles. -/
def okCex : Nat → Bool := fun n => decide (n < 6)

/-- A ROS `ok()` history that ends the node loop after 3 cycles. -/
def okCex3 : Nat → Bool := fun n => decide (n < 3)

/-- Claim C2 as stated is false for the pub/sub variant: in
`mpu9150_node.cpp` the `chatter_pub.publish(msg)` call sits outside the
`if (mpu9150_read(&mpu) == 0)` block, so with five "not ready" reads
followed by one fresh read the sink receives 6 publishes, not the claimed
exactly 1. -/
theorem C2_dispatch_iff_fresh_cex :
    (main_node FileArg.defaultMissing FileArg.defaultMissing 10 okCex rdScen 8).map
      countPublishes = some 6 ∧
    (main_node FileArg.defaultMissing FileArg.defaultMissing 10 okCex rdScen 8).map
      countPublishes ≠ some 1 := by
  decide

/-- Claim C2, amended: in the console variant (`imu.c`) the dispatch is
invoked exactly when the driver read returns a fresh sample — in every
completed run the print count equals the fresh-read count, and in the
5-not-ready-then-1-fresh scenario the 6-cycle run prints exactly once.  In
the pub/sub variant (`mpu9150_node.cpp`) a publish happens on every cycle
regardless of the read result (the message body is filled only on a fresh
read), so its publish count equals its read count. -/
theorem C2_dispatch_iff_fresh :
    (∀ (dn : Nat → Bool) (rd : Nat → Int) (d fuel n : Nat),
      (read_loop_go dn rd d fuel n).map countPrints =
        (read_loop_go dn rd d fuel n).map countFresh) ∧
    (∀ (ok : Nat → Bool) (rd : Nat → Int) (fuel n : Nat),
      (node_loop_go ok rd fuel n).map countPublishes =
        (node_loop_go ok rd fuel n).map countReads) ∧
    (read_loop 10 dnScen rdScen 8).map countReads = some 6 ∧
    (read_loop 10 dnScen rdScen 8).map countPrints = some 1 := by
  refine ⟨read_loop_go_prints_eq_fresh,
    fun ok rd fuel n => (node_loop_go_pub_eq_reads ok rd fuel n).1,
    by decide, by decide⟩

/-- Claim C3 as stated is false for the pub/sub variant: a node run that
completes normally (here `ros::ok()` turns false after 6 cycles) contains
zero driver shutdown calls — `mpu9150_node.cpp` never calls
`mpu9150_exit` on any exit path. -/
theorem C3_cancellation_cex :
    (main_node FileArg.defaultMissing FileArg.defaultMissing 10 okCex rdScen 8).map
      countShutdowns = some 0 ∧
    (main_node FileArg.defaultMissing FileArg.defaultMissing 10 okCex rdScen 8).map
      countShutdowns ≠ some 1 := by
  decide

/-- Claim C3, amended: in the console variant, if the (monotone, set-once)
`done` flag is set by the `k`-th poll and the fuel covers `k` cycles, the
run completes with at most `k` driver reads — so a flag set during cycle
`j` allows at most the one in-flight cycle `j` plus the exit check — and
`mpu9150_exit` is called exactly once on that run (this also covers the
normal-completion and `rate = 0` paths, where the same count holds).  In
the pub/sub variant, no completed run ever contains a driver shutdown
call. -/
theorem C3_cancellation (a m : FileArg) (rate : Nat) (dn : Nat → Bool)
    (rd : Nat → Int) (k fuel : Nat)
    (hmono : ∀ j, dn j = true → dn (j + 1) = true)
    (hk : dn k = true) (hfuel : k ≤ fuel) :
    loopBoundedBy (main_imu a m rate dn rd fuel) k = true ∧
    (main_imu a m rate dn rd fuel).map countShutdowns = some 1 ∧
    ∀ (a' m' : FileArg) (rate' : Nat) (ok : Nat → Bool) (rd' : Nat → Int)
      (fuel' : Nat),
      Event.shutdownEv ∉ (main_node a' m' rate' ok rd' fuel').getD [] := by
  obtain ⟨t, ht, hct⟩ :=
    read_loop_go_bounded dn rd (loop_delay rate) k hmono hk fuel 0 (by omega)
  have hu : ∃ u, read_loop rate dn rd fuel = some u ∧ countReads u ≤ k := by
    by_cases hr : rate = 0
    · exact ⟨[], by simp [read_loop, hr], by simp [countReads, List.countP_nil]⟩
    · refine ⟨Event.delayEv (loop_delay rate) :: t, by simp [read_loop, hr, ht], ?_⟩
      simpa [countReads, List.countP_cons, isRead] using hct
  obtain ⟨u, hru, hcu⟩ := hu
  refine ⟨?_, ?_, fun a' m' rate' ok rd' fuel' =>
    main_node_no_shutdown a' m' rate' ok rd' fuel'⟩
  · have hcnt := main_imu_countP a m rate dn rd fuel isRead
      (fun _ => rfl) (fun _ => rfl) rfl
    rw [hru] at hcnt
    cases hmain : main_imu a m rate dn rd fuel with
    | none => rw [hmain] at hcnt; simp at hcnt
    | some T =>
      rw [hmain] at hcnt
      simp only [Option.map_some', Option.some.injEq] at hcnt
      simp only [loopBoundedBy, decide_eq_true_eq, countReads] at hcu ⊢
      omega
  · have hsd := main_imu_shutdown_once a m rate dn rd fuel
    rw [hru] at hsd
    simpa using hsd

/-- Witness for the amended C3: flag set from the second poll on, one
in-flight cycle, run completes with one read and one shutdown call. -/
theorem C3_cancellation_witness :
    loopBoundedBy
      (main_imu FileArg.defaultMissing FileArg.defaultMissing 10 dnW rdZero 1) 1 =
      true ∧
    (main_imu FileArg.defaultMissing FileArg.defaultMissing 10 dnW rdZero 1).map
      countShutdowns = some 1 := by
  have h := C3_cancellation FileArg.defaultMissing FileArg.defaultMissing 10 dnW
    rdZero 1 1
    (fun j hj => by simp only [dnW, decide_eq_true_eq] at hj ⊢; omega)
    (by simp [dnW]) (Nat.le_refl 1)
  exact ⟨h.1, h.2.1⟩

/-- Claim C6 as stated is false: with an explicitly supplied accel
calibration path whose open fails, the console `main` does not exit — it
discards `set_cal`'s -1, sampling starts (one read here) and the run ends
through the normal shutdown path. -/
theorem C6_explicit_missing_cex :
    (main_imu FileArg.explicitMissing FileArg.defaultMissing 10 dnW rdZero 2).map
      countReads = some 1 ∧
    (main_imu FileArg.explicitMissing FileArg.defaultMissing 10 dnW rdZero 2).map
      countReads ≠ some 0 ∧
    (main_imu FileArg.explicitMissing FileArg.defaultMissing 10 dnW rdZero 2).map
      countShutdowns = some 1 := by
  decide

/-- Claim C6, amended: an unreadable explicitly supplied calibration file
makes `set_cal` report and return -1 without touching the driver, and an
absent default-named file returns 0 without touching the driver; but
`main` ignores both return values, so sampling proceeds identically
whatever the calibration outcomes — the read and shutdown counts of a run
do not depend on the calibration arguments. -/
theorem C6_missing_file_outcomes :
    set_cal false FileArg.explicitMissing = CalOutcome.err ∧
    set_cal true FileArg.explicitMissing = CalOutcome.err ∧
    set_cal_ret CalOutcome.err = -1 ∧
    (∀ b : Bool, set_cal_events b FileArg.explicitMissing = []) ∧
    (∀ b : Bool, set_cal b FileArg.defaultMissing = CalOutcome.noCal ∧
      set_cal_ret (set_cal b FileArg.defaultMissing) = 0 ∧
      set_cal_events b FileArg.defaultMissing = []) ∧
    ∀ (a m a' m' : FileArg) (rate : Nat) (dn : Nat → Bool) (rd : Nat → Int)
      (fuel : Nat),
      (main_imu a m rate dn rd fuel).map countReads =
        (main_imu a' m' rate dn rd fuel).map countReads ∧
      (main_imu a m rate dn rd fuel).map countShutdowns =
        (main_imu a' m' rate dn rd fuel).map countShutdowns := by
  refine ⟨rfl, rfl, rfl, ?_, ?_, ?_⟩
  · intro b; cases b <;> rfl
  · intro b; cases b <;> exact ⟨rfl, rfl, rfl⟩
  · intro a m a' m' rate dn rd fuel
    constructor
    · exact Eq.trans
        (main_imu_countP a m rate dn rd fuel isRead (fun _ => rfl) (fun _ => rfl) rfl)
        (main_imu_countP a' m' rate dn rd fuel isRead (fun _ => rfl) (fun _ => rfl)
          rfl).symm
    · exact Eq.trans (main_imu_shutdown_once a m rate dn rd fuel)
        (main_imu_shutdown_once a' m' rate dn rd fuel).symm

/-- Claim C7 as stated is false for the pub/sub variant: at rate 0 the
node's `main` returns -1 at once with zero driver reads but also zero
driver shutdown calls — it does not return "after the driver shutdown
call". -/
theorem C7_rate_zero_cex :
    (main_node FileArg.defaultMissing FileArg.defaultMissing 0 okCex rdScen 3).map
      countShutdowns = some 0 ∧
    (main_node FileArg.defaultMissing FileArg.defaultMissing 0 okCex rdScen 3).map
      countShutdowns ≠ some 1 ∧
    main_node_ret 0 = -1 := by
  decide

/-- Claim C7, amended: with rate 0 both variants perform zero driver reads
and zero sink dispatches; the console variant returns immediately after
its single `mpu9150_exit` call (the trace ends with the shutdown event),
while the node variant returns -1 immediately with no shutdown call. -/
theorem C7_rate_zero :
    (∀ (a m : FileArg) (dn : Nat → Bool) (rd : Nat → Int) (fuel : Nat),
      main_imu a m 0 dn rd fuel =
        some (set_cal_events false a ++ set_cal_events true m ++
          [Event.shutdownEv]) ∧
      (main_imu a m 0 dn rd fuel).map countReads = some 0 ∧
      (main_imu a m 0 dn rd fuel).map countPrints = some 0 ∧
      (main_imu a m 0 dn rd fuel).map countShutdowns = some 1) ∧
    ∀ (a m : FileArg) (ok : Nat → Bool) (rd : Nat → Int) (fuel : Nat),
      main_node a m 0 ok rd fuel =
        some (set_cal_events false a ++ set_cal_events true m) ∧
      (main_node a m 0 ok rd fuel).map countReads = some 0 ∧
      (main_node a m 0 ok rd fuel).map countPublishes = some 0 ∧
      (main_node a m 0 ok rd fuel).map countShutdowns = some 0 ∧
      main_node_ret 0 = -1 := by
  constructor
  · intro a m dn rd fuel
    refine ⟨?_, ?_, ?_, ?_⟩ <;>
      simp [main_imu, read_loop, countReads, countPrints, countShutdowns,
        List.countP_append, List.countP_cons, List.countP_nil,
        countP_set_cal_events isRead (fun _ => rfl) (fun _ => rfl),
        countP_set_cal_events isPrint (fun _ => rfl) (fun _ => rfl),
        countP_set_cal_events isShutdown (fun _ => rfl) (fun _ => rfl),
        isRead, isPrint, isShutdown]
  · intro a m ok rd fuel
    refine ⟨?_, ?_, ?_, ?_, ?_⟩ <;>
      simp [main_node, main_node_ret, countReads, countPublishes, countShutdowns,
        List.countP_append, List.countP_cons, List.countP_nil,
        countP_set_cal_events isRead (fun _ => rfl) (fun _ => rfl),
        countP_set_cal_events isPublish (fun _ => rfl) (fun _ => rfl),
        countP_set_cal_events isShutdown (fun _ => rfl) (fun _ => rfl)]

/-- Claim C8 as stated is false for the pub/sub variant: at rate 20 a node
run with 3 loop iterations performs only the single pre-loop
`linux_delay_ms(loop_delay)` call; the iterations are paced by the
hard-coded 10 Hz `ros::Rate` sleep instead, so the computed delay is not
applied before every iteration. -/
theorem C8_fixed_delay_cex :
    (main_node FileArg.defaultMissing FileArg.defaultMissing 20 okCex3 rdZero 5).map
      countDelays = some 1 ∧
    (main_node FileArg.defaultMissing FileArg.defaultMissing 20 okCex3 rdZero 5).map
      countReads = some 3 ∧
    (main_node FileArg.defaultMissing FileArg.defaultMissing 20 okCex3 rdZero 5).map
      countRateSleeps = some 3 ∧
    (main_node FileArg.defaultMissing FileArg.defaultMissing 20 okCex3 rdZero 5).map
      countDelays ≠
      (main_node FileArg.defaultMissing FileArg.defaultMissing 20 okCex3 rdZero 5).map
        countReads := by
  decide

/-- Claim C8, amended: in the console variant the delay is computed once
from the requested rate and that same value is used by every
`linux_delay_ms` call of the run, one before each iteration plus the
initial one (delay count = read count + 1 for nonzero rates).  In the
pub/sub variant the computed delay is applied exactly once, before the
loop; each iteration instead sleeps on the fixed 10 Hz `ros::Rate`
object (one rate-sleep per read). -/
theorem C8_fixed_delay :
    (∀ (a m : FileArg) (rate : Nat) (dn : Nat → Bool) (rd : Nat → Int)
      (fuel : Nat),
      delaysAllEq (loop_delay rate) (main_imu a m rate dn rd fuel) = true) ∧
    (∀ (a m : FileArg) (rate : Nat) (dn : Nat → Bool) (rd : Nat → Int)
      (fuel : Nat),
      (main_imu a m (rate + 1) dn rd fuel).map countDelays =
        (main_imu a m (rate + 1) dn rd fuel).map (fun t => countReads t + 1)) ∧
    ∀ (a m : FileArg) (rate : Nat) (ok : Nat → Bool) (rd : Nat → Int)
      (fuel : Nat),
      ((main_node a m (rate + 1) ok rd fuel).map countDelays =
        (main_node a m (rate + 1) ok rd fuel).map (fun _ => 1)) ∧
      ((main_node a m (rate + 1) ok rd fuel).map countRateSleeps =
        (main_node a m (rate + 1) ok rd fuel).map countReads) :=
  ⟨main_imu_delays_fixed, main_imu_delay_count, main_node_delay_count⟩
